import Mathlib

/-!
Verification development for the `rb` package (lock-free MPMC ring buffer,
`src/ringbuf/rb/rb.go`).  The Go code is shallowly embedded:

* `RingBuf` mirrors the `ringBuf` struct (uint32 fields become `Nat` with
  explicit reduction modulo 2^32 where the arithmetic can wrap; the padding
  bytes and the logger are layout/diagnostic artefacts and carry no state).
* `Slot` mirrors `rbItem`; a Go `interface{}` payload becomes `Option Nat`
  with `none` standing for Go's `nil`.
* Sequential executions of `Enqueue` / `Dequeue` are the fueled functions
  `enqueueLoop` / `dequeueLoop` (fuel bounds the retry loop; running out of
  fuel models a spin that has not yet returned).
* Concurrent executions are modelled by a small-step machine: each producer
  or consumer thread holds a program counter (`PState` / `CState`) marking
  the position between two atomic actions of the Go code, and `stepSys`
  performs one atomic action of one thread.  A schedule (list of thread
  indices) determines an interleaving.

Out-of-range index accesses (`rb.data[i]` with `i ≥ len`) would panic in Go;
they are modelled as default reads / no-op writes and are never reached from
well-formed states.
-/

namespace RingBufSpec

/-- 2^32, the wrap modulus of Go's uint32 arithmetic. -/
def U32 : Nat := 4294967296

/-- 2^64, the wrap modulus of Go's uint64 arithmetic. -/
def U64 : Nat := 18446744073709551616

/-- One cell of the ring storage: `rbItem` in rb.go.  `readWrite` is the
four-state marker (0 writable, 2 write in progress, 1 readable, 3 read in
progress); `value` is the payload, `none` modelling Go's nil interface. -/
structure Slot where
  readWrite : Nat
  value : Option Nat
deriving DecidableEq

instance : Inhabited Slot := ⟨⟨0, none⟩⟩

/-- The `ringBuf` struct of rb.go (padding bytes and the zap logger omitted:
they carry no algorithmic state). -/
structure RingBuf where
  cap : Nat
  capModMask : Nat
  head : Nat
  tail : Nat
  putWaits : Nat
  getWaits : Nat
  data : List Slot
  debugMode : Bool
deriving DecidableEq

/-- The error outcomes of rb.go: `ErrQueueFull`, `ErrQueueEmpty`, the two
`ErrRaced` wrappers (`[W] ... 2=>1` in Enqueue, `[R] ... 3=>0` in Dequeue)
and the formatted error built in Dequeue's nil-value branch. -/
inductive GoErr where
  | queueFull
  | queueEmpty
  | racedW
  | racedR
  | nilErr
deriving DecidableEq

/-- `rb.data[i]` (reads of an out-of-range index, which would panic in Go,
yield the default slot; never reached from well-formed states). -/
def slotAt (rb : RingBuf) (i : Nat) : Slot := rb.data.getD i default

/-- Outcome of a fueled run of `Enqueue`: returned with an error value, or
still spinning in the retry loop when the fuel ran out. -/
inductive EnqOut where
  | done (err : Option GoErr)
  | spin
deriving DecidableEq

/-- Lines 108-116 of rb.go: the producer's release CAS
`CompareAndSwapUint64(&holder.readWrite, 2, 1)`; on failure the `[W]`
`ErrRaced` wrapper is returned. -/
def enqueueFinish (rb : RingBuf) (tl : Nat) : RingBuf × Option GoErr :=
  let holder := slotAt rb tl
  if holder.readWrite = 2 then
    ({ rb with data := rb.data.set tl { holder with readWrite := 1 } }, none)
  else
    (rb, some GoErr.racedW)

/-- Lines 98-101 of rb.go after a successful claim CAS (the sequential
snapshot equals the current `(head, tail)`): mark the slot
`WriteInProgress`, store the payload, then the tail CAS
`CompareAndSwapUint32(&rb.tail, tail, nt)` whose failure is tolerated. -/
def enqClaimed (rb : RingBuf) (item : Option Nat) : RingBuf :=
  let tail := rb.tail
  let nt := ((tail + 1) % U32) &&& rb.capModMask
  let holder := slotAt rb tail
  let rb1 := { rb with data := rb.data.set tail { holder with readWrite := 2 } }
  let h1 := slotAt rb1 tail
  let rb2 := { rb1 with data := rb1.data.set tail { h1 with value := item } }
  if rb2.tail = tail then { rb2 with tail := nt } else rb2

/-- Lines 78-117 of rb.go, `Enqueue`, run sequentially with `fuel` bounding
the retry loop.  Each iteration: snapshot `(head, tail)`, full test, claim
CAS `rw: 0 → 2` followed by the claimed-path writes (`enqClaimed`), then the
release CAS (`enqueueFinish`).  A failed claim sleeps, bumps `putWaits` and
retries. -/
def enqueueLoop : Nat → RingBuf → Option Nat → RingBuf × EnqOut
  | 0, rb, _ => (rb, EnqOut.spin)
  | fuel+1, rb, item =>
    if ((rb.tail + 1) % U32) &&& rb.capModMask = rb.head then
      (rb, EnqOut.done (some GoErr.queueFull))
    else if (slotAt rb rb.tail).readWrite = 0 then
      let r := enqueueFinish (enqClaimed rb item) rb.tail
      (r.1, EnqOut.done r.2)
    else
      enqueueLoop fuel { rb with putWaits := (rb.putWaits + 1) % U64 } item

/-- Outcome of a fueled run of `Dequeue`: the returned `(item, err)` pair
plus whether `logger.Fatal` was invoked, or still spinning. -/
inductive DeqOut where
  | done (item : Option Nat) (err : Option GoErr) (fatal : Bool)
  | spin
deriving DecidableEq

/-- Lines 166-193 of rb.go: the consumer's tail end after a successful claim
CAS — read the payload, advance `head` by CAS (failure tolerated), release
CAS `rw: 3 → 0` (failure returns the `[R]` `ErrRaced` wrapper with the item
still returned), then the nil-payload check which sets a formatted error and
invokes `logger.Fatal`. -/
def dequeueFinish (rb : RingBuf) (hd tl : Nat) : RingBuf × DeqOut :=
  let holder := slotAt rb hd
  let item := holder.value
  let nh := ((hd + 1) % U32) &&& rb.capModMask
  let rb1 := if rb.head = hd then { rb with head := nh } else rb
  let h1 := slotAt rb1 hd
  if h1.readWrite = 3 then
    let rb2 := { rb1 with data := rb1.data.set hd { h1 with readWrite := 0 } }
    if item = none then
      (rb2, DeqOut.done item (some GoErr.nilErr) true)
    else
      (rb2, DeqOut.done item none false)
  else
    (rb1, DeqOut.done item (some GoErr.racedR) false)

/-- Line 143 of rb.go after a successful claim CAS: the slot at `head` is
marked `ReadInProgress`. -/
def deqClaimed (rb : RingBuf) : RingBuf :=
  let holder := slotAt rb rb.head
  { rb with data := rb.data.set rb.head { holder with readWrite := 3 } }

/-- Lines 124-194 of rb.go, `Dequeue`, run sequentially with `fuel` bounding
the retry loop.  Each iteration: snapshot, empty test, claim CAS
`rw: 1 → 3`, then `dequeueFinish`.  A failed claim sleeps, bumps `getWaits`
and retries. -/
def dequeueLoop : Nat → RingBuf → RingBuf × DeqOut
  | 0, rb => (rb, DeqOut.spin)
  | fuel+1, rb =>
    if rb.head = rb.tail then
      (rb, DeqOut.done none (some GoErr.queueEmpty) false)
    else if (slotAt rb rb.head).readWrite = 1 then
      dequeueFinish (deqClaimed rb) rb.head rb.tail
    else
      dequeueLoop fuel { rb with getWaits := (rb.getWaits + 1) % U64 }

/-- Modelled from the spec: `IsEmpty` (its Go code is not under src/;
spec §3 invariant 3: `head == tail` ⇔ no items visible to consumers, read
from a snapshot). -/
def IsEmpty (rb : RingBuf) : Bool := rb.head = rb.tail

/-- `fuel` doubling steps towards the least power of two that is `≥ n`,
starting from 2. -/
def ceilPow2Aux (n : Nat) : Nat → Nat
  | 0 => 2
  | fuel+1 =>
    let p := ceilPow2Aux n fuel
    if n ≤ p then p else 2 * p

/-- Next power of two, at least 2 (spec §4.1 rounding rule): `n` doubling
steps always suffice. -/
def ceilPow2 (n : Nat) : Nat := ceilPow2Aux n n

/-- Modelled from the spec: the constructor `New` (its Go code is not under
src/; spec §4.1: round the capacity up to the next power of two, minimum 2,
`capacity_mask = capacity - 1`, `head = tail = 0`, counters zero, every slot
`rw = Writable`, `value = ⊥`). -/
def mkRingBuf (capacity : Nat) : RingBuf :=
  let c := ceilPow2 capacity
  { cap := c, capModMask := c - 1, head := 0, tail := 0, putWaits := 0,
    getWaits := 0, data := List.replicate c default, debugMode := false }

/-- Run one sequential `Enqueue` per listed payload (fuel 1 each: enough for
any uncontended call), collecting the returned errors in order.  A spinning
call ends the run. -/
def enqueueAll : RingBuf → List (Option Nat) → RingBuf × List (Option GoErr)
  | rb, [] => (rb, [])
  | rb, item :: rest =>
    match enqueueLoop 1 rb item with
    | (rb1, EnqOut.done e) =>
      let r := enqueueAll rb1 rest
      (r.1, e :: r.2)
    | (rb1, EnqOut.spin) => (rb1, [])

/-- Run `n` sequential `Dequeue` calls (fuel 1 each), collecting the
returned `(item, err)` pairs in order.  A spinning call ends the run. -/
def dequeueAll : RingBuf → Nat → RingBuf × List (Option Nat × Option GoErr)
  | rb, 0 => (rb, [])
  | rb, n+1 =>
    match dequeueLoop 1 rb with
    | (rb1, DeqOut.done it e _) =>
      let r := dequeueAll rb1 n
      (r.1, (it, e) :: r.2)
    | (rb1, DeqOut.spin) => (rb1, [])

/-- One sequential call: an `Enqueue` of a payload or a `Dequeue`. -/
inductive Op where
  | enq (item : Option Nat)
  | deq
deriving DecidableEq

/-- State left by one sequential call (a call that is still spinning when
the fuel runs out has not changed `head` or `tail`, so its state is kept). -/
def applyOp (fuel : Nat) (rb : RingBuf) : Op → RingBuf
  | Op.enq item => (enqueueLoop fuel rb item).1
  | Op.deq => (dequeueLoop fuel rb).1

/-- State after a sequence of sequential `Enqueue` / `Dequeue` calls. -/
def runSeq (fuel : Nat) : RingBuf → List Op → RingBuf
  | rb, [] => rb
  | rb, op :: rest => runSeq fuel (applyOp fuel rb op) rest

/-- `i` lies in the cyclic occupied segment `[head, tail)` of the ring. -/
def inSeg (head tail i : Nat) : Prop :=
  if head ≤ tail then head ≤ i ∧ i < tail else i < tail ∨ head ≤ i

instance (head tail i : Nat) : Decidable (inSeg head tail i) := by
  unfold inSeg
  infer_instance

/-!  Concurrent small-step machine.  Each constructor of `PState` / `CState`
is a program point of rb.go lying between two shared-memory accesses; one
`stepSys` performs the single atomic action at the current point of the
chosen thread.  Local variables captured so far are carried in the
constructor. -/

/-- Producer program counter inside `Enqueue` (rb.go lines 78-117):
`start` before the 64-bit snapshot load; `snapped` between the snapshot and
the claim CAS; `claimed` between the claim CAS and the payload store;
`wrote` between the payload store and the tail CAS; `advanced` between the
tail CAS and the release CAS; `done` after return. -/
inductive PState where
  | start
  | snapped (head tail nt : Nat)
  | claimed (head tail nt : Nat)
  | wrote (head tail nt : Nat)
  | advanced (head tail nt : Nat)
  | done (err : Option GoErr)
deriving DecidableEq

/-- Consumer program counter inside `Dequeue` (rb.go lines 124-194):
`start` before the snapshot; `snapped` before the claim CAS; `claimed`
before the payload read; `readv` before the head CAS; `advanced` before the
release CAS; `done` after return (carrying the returned item and error). -/
inductive CState where
  | start
  | snapped (head tail : Nat)
  | claimed (head tail : Nat)
  | readv (head tail : Nat) (item : Option Nat)
  | advanced (head tail : Nat) (item : Option Nat)
  | done (item : Option Nat) (err : Option GoErr)
deriving DecidableEq

/-- One atomic action of a producer executing `Enqueue item`. -/
def prodStep (rb : RingBuf) (item : Option Nat) : PState → RingBuf × PState
  | PState.start =>
    let head := rb.head
    let tail := rb.tail
    let nt := ((tail + 1) % U32) &&& rb.capModMask
    if nt = head then (rb, PState.done (some GoErr.queueFull))
    else (rb, PState.snapped head tail nt)
  | PState.snapped head tail nt =>
    let holder := slotAt rb tail
    if holder.readWrite = 0 then
      ({ rb with data := rb.data.set tail { holder with readWrite := 2 } },
        PState.claimed head tail nt)
    else
      ({ rb with putWaits := (rb.putWaits + 1) % U64 }, PState.start)
  | PState.claimed head tail nt =>
    let holder := slotAt rb tail
    ({ rb with data := rb.data.set tail { holder with value := item } },
      PState.wrote head tail nt)
  | PState.wrote head tail nt =>
    ((if rb.tail = tail then { rb with tail := nt } else rb),
      PState.advanced head tail nt)
  | PState.advanced head tail nt =>
    let holder := slotAt rb tail
    if holder.readWrite = 2 then
      ({ rb with data := rb.data.set tail { holder with readWrite := 1 } },
        PState.done none)
    else
      (rb, PState.done (some GoErr.racedW))
  | PState.done e => (rb, PState.done e)

/-- One atomic action of a consumer executing `Dequeue`. -/
def consStep (rb : RingBuf) : CState → RingBuf × CState
  | CState.start =>
    let head := rb.head
    let tail := rb.tail
    if head = tail then (rb, CState.done none (some GoErr.queueEmpty))
    else (rb, CState.snapped head tail)
  | CState.snapped head tail =>
    let holder := slotAt rb head
    if holder.readWrite = 1 then
      ({ rb with data := rb.data.set head { holder with readWrite := 3 } },
        CState.claimed head tail)
    else
      ({ rb with getWaits := (rb.getWaits + 1) % U64 }, CState.start)
  | CState.claimed head tail =>
    (rb, CState.readv head tail (slotAt rb head).value)
  | CState.readv head tail item =>
    let nh := ((head + 1) % U32) &&& rb.capModMask
    ((if rb.head = head then { rb with head := nh } else rb),
      CState.advanced head tail item)
  | CState.advanced head tail item =>
    let holder := slotAt rb head
    if holder.readWrite = 3 then
      ({ rb with data := rb.data.set head { holder with readWrite := 0 } },
        CState.done item (if item = none then some GoErr.nilErr else none))
    else
      (rb, CState.done item (some GoErr.racedR))
  | CState.done it e => (rb, CState.done it e)

/-- A thread: a producer carrying its payload, or a consumer. -/
inductive Thread where
  | prod (item : Option Nat) (st : PState)
  | cons (st : CState)
deriving DecidableEq

/-- One atomic action of a thread. -/
def stepThread (rb : RingBuf) : Thread → RingBuf × Thread
  | Thread.prod item st =>
    let r := prodStep rb item st
    (r.1, Thread.prod item r.2)
  | Thread.cons st =>
    let r := consStep rb st
    (r.1, Thread.cons r.2)

/-- A system: the shared ring buffer plus the thread pool. -/
structure Sys where
  rb : RingBuf
  threads : List Thread
deriving DecidableEq

/-- One atomic action of thread `i` (no-op if `i` is out of range). -/
def stepSys (s : Sys) (i : Nat) : Sys :=
  match s.threads.get? i with
  | none => s
  | some t =>
    let r := stepThread s.rb t
    ⟨r.1, s.threads.set i r.2⟩

/-- Run a schedule: an interleaving given as the list of thread indices that
act, in order. -/
def runSys : Sys → List Nat → Sys
  | s, [] => s
  | s, i :: rest => runSys (stepSys s i) rest

/-- The `readWrite` marker of slot `j`. -/
def rwAt (rb : RingBuf) (j : Nat) : Nat := (slotAt rb j).readWrite

/-- Well-formed sequential state (spec §3 invariants): capacity a power of
two `2^k` (`2 ≤ cap`, uint32-sized), mask `cap - 1`, `head`, `tail` in
range, and every slot `Readable` exactly on the occupied segment, `Writable`
elsewhere. -/
structure Wf (k : Nat) (rb : RingBuf) : Prop where
  hk : 1 ≤ k
  hk32 : k ≤ 32
  hmask : rb.capModMask = 2 ^ k - 1
  hlen : rb.data.length = 2 ^ k
  hhead : rb.head < 2 ^ k
  htail : rb.tail < 2 ^ k
  hslots : ∀ i, i < 2 ^ k → (slotAt rb i).readWrite = if inSeg rb.head rb.tail i then 1 else 0

/-! Concrete states used by the boundary-scenario and interleaving
theorems. -/

/-- A freshly constructed buffer with capacity 16: `head = tail = 0`, every
slot `rw = 0` with no value, counters zero. -/
def rb16 : RingBuf := mkRingBuf 16

/-- A capacity-4 system with two producers (payloads 1 and 2) and two
consumers, all at their entry points. -/
def lostSys : Sys :=
  ⟨mkRingBuf 4,
   [Thread.prod (some 1) PState.start, Thread.prod (some 2) PState.start,
    Thread.cons CState.start, Thread.cons CState.start]⟩

/-- The interleaving that loses an element: producer 1 takes its snapshot
and stalls; producer 0 completes an enqueue; consumer 2 completes a dequeue;
producer 1 resumes on its stale snapshot (claims slot 0, which is again
writable but now behind `head`, its tail CAS fails silently, its release CAS
succeeds) and returns success; consumer 3 then observes an empty queue. -/
def lostSched : List Nat := [1, 0, 0, 0, 0, 0, 2, 2, 2, 2, 2, 1, 1, 1, 1, 3]

/-! Helper lemmas shared by the sequential theorems. -/

/-- The producer's release CAS can yield only success or the Raced error,
never QueueFull. -/
theorem enqueueFinish_snd_ne_full (rb : RingBuf) (t : Nat) :
    (enqueueFinish rb t).2 ≠ some GoErr.queueFull := by
  simp only [enqueueFinish]
  split <;> simp

/-- One unfolding of the `Enqueue` retry loop. -/
theorem enqueueLoop_succ_eq (fuel : Nat) (rb : RingBuf) (item : Option Nat) :
    enqueueLoop (fuel+1) rb item =
      if ((rb.tail + 1) % U32) &&& rb.capModMask = rb.head then
        (rb, EnqOut.done (some GoErr.queueFull))
      else if (slotAt rb rb.tail).readWrite = 0 then
        ((enqueueFinish (enqClaimed rb item) rb.tail).1,
          EnqOut.done (enqueueFinish (enqClaimed rb item) rb.tail).2)
      else
        enqueueLoop fuel { rb with putWaits := (rb.putWaits + 1) % U64 } item := rfl

/-- The consumer's post-claim code can yield success, the Raced error or the
nil-value error, never QueueEmpty. -/
theorem dequeueFinish_no_empty (rb : RingBuf) (hd tl : Nat) (it : Option Nat) (ft : Bool) :
    (dequeueFinish rb hd tl).2 ≠ DeqOut.done it (some GoErr.queueEmpty) ft := by
  simp only [dequeueFinish]
  split <;> (try split) <;> (try split) <;> simp

/-- One unfolding of the `Dequeue` retry loop. -/
theorem dequeueLoop_succ_eq (fuel : Nat) (rb : RingBuf) :
    dequeueLoop (fuel+1) rb =
      if rb.head = rb.tail then
        (rb, DeqOut.done none (some GoErr.queueEmpty) false)
      else if (slotAt rb rb.head).readWrite = 1 then
        dequeueFinish (deqClaimed rb) rb.head rb.tail
      else
        dequeueLoop fuel { rb with getWaits := (rb.getWaits + 1) % U64 } := rfl

/-- C1: from a freshly constructed capacity-16 buffer, executed
sequentially, the first 15 Enqueue calls with payloads 0..14 all succeed,
the 16th Enqueue returns QueueFull; then the first 15 Dequeue calls return
exactly 0..14 in that order with no error, and the 16th Dequeue returns
QueueEmpty (and leaves the buffer unchanged after the QueueFull). -/
theorem cap16_boundary :
    (enqueueAll rb16 ((List.range 15).map some)).2 = List.replicate 15 none ∧
    (enqueueLoop 1 (enqueueAll rb16 ((List.range 15).map some)).1 (some 15)) =
      ((enqueueAll rb16 ((List.range 15).map some)).1, EnqOut.done (some GoErr.queueFull)) ∧
    (dequeueAll (enqueueAll rb16 ((List.range 15).map some)).1 15).2 =
      (List.range 15).map (fun i => (some i, (none : Option GoErr))) ∧
    (dequeueLoop 1 (dequeueAll (enqueueAll rb16 ((List.range 15).map some)).1 15).1).2 =
      DeqOut.done none (some GoErr.queueEmpty) false := by
  decide

/-- C3: a counterexample interleaving to "the multiset of dequeued tokens
equals the multiset of enqueued tokens once the queue drains".  Under
`lostSched` both producers' Enqueue calls return success (their `done`
states carry no error), the queue reports `IsEmpty`, yet the consumers
dequeued only token 1: token 2 was enqueued successfully and lost (it sits
in slot 0 behind `head`, invisible to the index pair). -/
theorem lost_enqueue_interleaving :
    (runSys lostSys lostSched).threads =
      [Thread.prod (some 1) (PState.done none),
       Thread.prod (some 2) (PState.done none),
       Thread.cons (CState.done (some 1) none),
       Thread.cons (CState.done none (some GoErr.queueEmpty))] ∧
    IsEmpty (runSys lostSys lostSched).rb = true ∧
    rwAt (runSys lostSys lostSched).rb 0 = 1 ∧
    (slotAt (runSys lostSys lostSched).rb 0).value = some 2 := by
  decide

/-- C4: a sequential Enqueue returns QueueFull iff the `(head, tail)`
snapshot it loads satisfies `(tail + 1) & capacity_mask = head`, and
whenever it returns QueueFull the whole buffer (head, tail, every slot,
both counters) is left exactly as it was. -/
theorem enqueue_full_iff_unchanged :
    ∀ (fuel : Nat) (rb : RingBuf) (item : Option Nat),
    ((enqueueLoop (fuel+1) rb item).2 = EnqOut.done (some GoErr.queueFull) ↔
      ((rb.tail + 1) % U32) &&& rb.capModMask = rb.head) ∧
    ((enqueueLoop (fuel+1) rb item).2 = EnqOut.done (some GoErr.queueFull) →
      (enqueueLoop (fuel+1) rb item).1 = rb) := by
  intro fuel
  induction fuel with
  | zero =>
    intro rb item
    rw [enqueueLoop_succ_eq]
    split
    · next hfull => simp [hfull]
    · next hfull =>
      split
      · simp [enqueueFinish_snd_ne_full, hfull]
      · simp only [enqueueLoop]
        simp [hfull]
  | succ f ih =>
    intro rb item
    rw [enqueueLoop_succ_eq]
    split
    · next hfull => simp [hfull]
    · next hfull =>
      split
      · simp [enqueueFinish_snd_ne_full, hfull]
      · have h := ih { rb with putWaits := (rb.putWaits + 1) % U64 } item
        constructor
        · constructor
          · intro hf
            exact absurd (by simpa using h.1.mp hf) hfull
          · intro hc
            exact absurd hc hfull
        · intro hf
          exact absurd (by simpa using h.1.mp hf) hfull

/-- A capacity-2 buffer holding one element: `(tail + 1) & mask = head`, so
it is full. -/
def fullRb : RingBuf :=
  { cap := 2, capModMask := 1, head := 0, tail := 1, putWaits := 0,
    getWaits := 0, data := [⟨1, some 7⟩, ⟨0, none⟩], debugMode := false }

/-- Witness for C4 at a concrete full buffer. -/
theorem enqueue_full_iff_unchanged_witness :
    (enqueueLoop 1 fullRb (some 9)).2 = EnqOut.done (some GoErr.queueFull) ∧
    (enqueueLoop 1 fullRb (some 9)).1 = fullRb := by
  have h := enqueue_full_iff_unchanged 0 fullRb (some 9)
  exact ⟨h.1.mpr (by decide), h.2 (h.1.mpr (by decide))⟩

/-- C5: a sequential Dequeue returns QueueEmpty iff the snapshot satisfies
`head = tail`, and in that case it returns a nil item, does not invoke the
fatal logger, and leaves the buffer completely unchanged. -/
theorem dequeue_empty_iff_unchanged :
    ∀ (fuel : Nat) (rb : RingBuf),
    (∀ it ft, (dequeueLoop (fuel+1) rb).2 = DeqOut.done it (some GoErr.queueEmpty) ft →
      rb.head = rb.tail) ∧
    (rb.head = rb.tail →
      dequeueLoop (fuel+1) rb = (rb, DeqOut.done none (some GoErr.queueEmpty) false)) := by
  intro fuel
  induction fuel with
  | zero =>
    intro rb
    rw [dequeueLoop_succ_eq]
    split
    · next hemp => simp [hemp]
    · next hemp =>
      split
      · constructor
        · intro it ft hf
          exact absurd hf (dequeueFinish_no_empty _ _ _ _ _)
        · intro hc
          exact absurd hc hemp
      · simp only [dequeueLoop]
        constructor
        · intro it ft hf
          simp at hf
        · intro hc
          exact absurd hc hemp
  | succ f ih =>
    intro rb
    rw [dequeueLoop_succ_eq]
    split
    · next hemp => simp [hemp]
    · next hemp =>
      split
      · constructor
        · intro it ft hf
          exact absurd hf (dequeueFinish_no_empty _ _ _ _ _)
        · intro hc
          exact absurd hc hemp
      · have h := ih { rb with getWaits := (rb.getWaits + 1) % U64 }
        constructor
        · intro it ft hf
          simpa using h.1 it ft hf
        · intro hc
          exact absurd hc hemp

/-- Witness for C5 at a concrete empty buffer. -/
theorem dequeue_empty_iff_unchanged_witness :
    dequeueLoop 1 (mkRingBuf 2) = (mkRingBuf 2, DeqOut.done none (some GoErr.queueEmpty) false) :=
  (dequeue_empty_iff_unchanged 0 (mkRingBuf 2)).2 (by decide)

theorem default_slot : (default : Slot) = ⟨0, none⟩ := rfl

theorem enqueueFinish_fields (rb : RingBuf) (t : Nat) :
    (enqueueFinish rb t).1.head = rb.head ∧ (enqueueFinish rb t).1.tail = rb.tail ∧
    (enqueueFinish rb t).1.capModMask = rb.capModMask := by
  simp only [enqueueFinish]
  split <;> simp

theorem enqClaimed_fields (rb : RingBuf) (item : Option Nat) :
    (enqClaimed rb item).head = rb.head ∧
    (enqClaimed rb item).tail = ((rb.tail + 1) % U32) &&& rb.capModMask ∧
    (enqClaimed rb item).capModMask = rb.capModMask := by
  simp [enqClaimed]

theorem enqueueLoop_fields :
    ∀ (fuel : Nat) (rb : RingBuf) (item : Option Nat),
    (enqueueLoop fuel rb item).1.head = rb.head ∧
    (enqueueLoop fuel rb item).1.capModMask = rb.capModMask ∧
    ((enqueueLoop fuel rb item).1.tail = rb.tail ∨
      (enqueueLoop fuel rb item).1.tail = ((rb.tail + 1) % U32) &&& rb.capModMask) := by
  intro fuel
  induction fuel with
  | zero =>
    intro rb item
    simp [enqueueLoop]
  | succ f ih =>
    intro rb item
    rw [enqueueLoop_succ_eq]
    split
    · simp
    · split
      · have hf := enqueueFinish_fields (enqClaimed rb item) rb.tail
        have hc := enqClaimed_fields rb item
        exact ⟨hf.1.trans hc.1, (hf.2.2).trans hc.2.2, Or.inr ((hf.2.1).trans hc.2.1)⟩
      · have h := ih { rb with putWaits := (rb.putWaits + 1) % U64 } item
        simpa using h

theorem dequeueFinish_fields (rb : RingBuf) (hd tl : Nat) :
    (dequeueFinish rb hd tl).1.tail = rb.tail ∧
    (dequeueFinish rb hd tl).1.capModMask = rb.capModMask ∧
    ((dequeueFinish rb hd tl).1.head = rb.head ∨
      (dequeueFinish rb hd tl).1.head = ((hd + 1) % U32) &&& rb.capModMask) := by
  simp only [dequeueFinish]
  split <;> (try split) <;> (try split) <;> simp

theorem deqClaimed_fields (rb : RingBuf) :
    (deqClaimed rb).head = rb.head ∧ (deqClaimed rb).tail = rb.tail ∧
    (deqClaimed rb).capModMask = rb.capModMask := by
  simp [deqClaimed]

theorem dequeueLoop_fields :
    ∀ (fuel : Nat) (rb : RingBuf),
    (dequeueLoop fuel rb).1.tail = rb.tail ∧
    (dequeueLoop fuel rb).1.capModMask = rb.capModMask ∧
    ((dequeueLoop fuel rb).1.head = rb.head ∨
      (dequeueLoop fuel rb).1.head = ((rb.head + 1) % U32) &&& rb.capModMask) := by
  intro fuel
  induction fuel with
  | zero =>
    intro rb
    simp [dequeueLoop]
  | succ f ih =>
    intro rb
    rw [dequeueLoop_succ_eq]
    split
    · simp
    · split
      · have hf := dequeueFinish_fields (deqClaimed rb) rb.head rb.tail
        have hc := deqClaimed_fields rb
        refine ⟨hf.1.trans hc.2.1, (hf.2.1).trans hc.2.2, ?_⟩
        rcases hf.2.2 with h | h
        · exact Or.inl (h.trans hc.1)
        · rw [hc.2.2] at h
          exact Or.inr h
      · have h := ih { rb with getWaits := (rb.getWaits + 1) % U64 }
        simpa using h

theorem masked_lt (k x m : Nat) (hm : m = 2 ^ k - 1) : x &&& m < 2 ^ k := by
  have h1 : x &&& m ≤ m := Nat.and_le_right
  have h2 : 0 < 2 ^ k := Nat.pos_pow_of_pos k (by omega)
  omega

/-- C6: with capacity a power of two `2^k`, mask `2^k - 1`, and `head`,
`tail` initially in `[0, capacity)` (in particular both 0), any sequence of
sequential Enqueue and Dequeue calls keeps `head` and `tail` within
`[0, capacity)`: every advancement stores a mask-reduced value. -/
theorem head_tail_bounds :
    ∀ (k fuel : Nat) (ops : List Op) (rb : RingBuf),
    rb.capModMask = 2 ^ k - 1 → rb.head < 2 ^ k → rb.tail < 2 ^ k →
    (runSeq fuel rb ops).capModMask = 2 ^ k - 1 ∧
    (runSeq fuel rb ops).head < 2 ^ k ∧ (runSeq fuel rb ops).tail < 2 ^ k := by
  intro k fuel ops
  induction ops with
  | nil =>
    intro rb hm hh ht
    exact ⟨hm, hh, ht⟩
  | cons op rest ih =>
    intro rb hm hh ht
    simp only [runSeq]
    cases op with
    | enq item =>
      have h := enqueueLoop_fields fuel rb item
      apply ih
      · simpa [applyOp, hm] using h.2.1
      · simpa [applyOp, hh] using h.1 ▸ hh
      · rcases h.2.2 with h2 | h2 <;> simp only [applyOp]
        · omega
        · rw [h2]
          exact masked_lt k _ _ hm
    | deq =>
      have h := dequeueLoop_fields fuel rb
      apply ih
      · simpa [applyOp, hm] using h.2.1
      · rcases h.2.2 with h2 | h2 <;> simp only [applyOp]
        · omega
        · rw [h2]
          exact masked_lt k _ _ hm
      · simp only [applyOp]
        omega

theorem dequeueFinish_rw3 (rb : RingBuf) (hd tl : Nat)
    (h3 : (slotAt rb hd).readWrite = 3) :
    (dequeueFinish rb hd tl).2 =
      if (slotAt rb hd).value = none then DeqOut.done none (some GoErr.nilErr) true
      else DeqOut.done (slotAt rb hd).value none false := by
  simp only [dequeueFinish]
  rw [show slotAt (if rb.head = hd then { rb with head := ((hd + 1) % U32) &&& rb.capModMask } else rb) hd
        = slotAt rb hd from by split <;> rfl]
  rw [h3]
  simp only [if_pos rfl]
  by_cases hv : (slotAt rb hd).value = none <;> simp [hv]

theorem deqClaimed_slot (rb : RingBuf) (h1 : (slotAt rb rb.head).readWrite = 1) :
    (slotAt (deqClaimed rb) rb.head).readWrite = 3 ∧
    (slotAt (deqClaimed rb) rb.head).value = (slotAt rb rb.head).value := by
  have hlen : rb.head < rb.data.length := by
    by_contra h
    have hz : slotAt rb rb.head = default := by
      simp [slotAt, List.getElem?_eq_none (Nat.le_of_not_lt h)]
    rw [hz, default_slot] at h1
    simp at h1
  simp [deqClaimed, slotAt, List.getElem?_set_self hlen]

/-- C7: a Dequeue that returns never pairs a nil payload with a nil error:
on a successful return (`err = none`) the payload is non-nil, and whenever
the payload read from the claimed slot is nil (any nil return other than the
QueueEmpty early exit), the error is non-nil and `logger.Fatal` was
invoked. -/
theorem dequeue_never_nil_on_ok :
    ∀ (fuel : Nat) (rb rb1 : RingBuf) (it : Option Nat) (err : Option GoErr) (ft : Bool),
    dequeueLoop fuel rb = (rb1, DeqOut.done it err ft) →
    (err = none → it ≠ none) ∧
    (it = none → err ≠ some GoErr.queueEmpty → ft = true ∧ err ≠ none) := by
  intro fuel
  induction fuel with
  | zero =>
    intro rb rb1 it err ft h
    simp [dequeueLoop] at h
  | succ f ih =>
    intro rb rb1 it err ft h
    rw [dequeueLoop_succ_eq] at h
    split at h
    · rw [Prod.mk.injEq, DeqOut.done.injEq] at h
      obtain ⟨-, hit, herr, hft⟩ := h
      constructor
      · intro he
        rw [← herr] at he
        simp at he
      · intro _ hne
        exact absurd herr.symm hne
    · split at h
      · next hrw =>
        have h3 := deqClaimed_slot rb hrw
        have hfin := dequeueFinish_rw3 (deqClaimed rb) rb.head rb.tail h3.1
        rw [Prod.ext_iff] at h
        rw [hfin] at h
        obtain ⟨-, h2⟩ := h
        split at h2
        · rw [DeqOut.done.injEq] at h2
          obtain ⟨hit, herr, hft⟩ := h2
          constructor
          · intro he
            rw [← herr] at he
            simp at he
          · intro _ _
            refine ⟨hft.symm, ?_⟩
            rw [← herr]
            simp
        · next hval =>
          rw [DeqOut.done.injEq] at h2
          obtain ⟨hit, herr, hft⟩ := h2
          constructor
          · intro _
            rw [← hit]
            exact hval
          · intro hn _
            rw [← hit] at hn
            exact absurd hn hval
      · exact ih _ _ _ _ _ h

/-- Witness for C6 at a concrete fresh buffer and a concrete op list. -/
theorem head_tail_bounds_witness :
    (runSeq 1 (mkRingBuf 4) [Op.enq (some 5), Op.deq]).capModMask = 2 ^ 2 - 1 ∧
    (runSeq 1 (mkRingBuf 4) [Op.enq (some 5), Op.deq]).head < 2 ^ 2 ∧
    (runSeq 1 (mkRingBuf 4) [Op.enq (some 5), Op.deq]).tail < 2 ^ 2 :=
  head_tail_bounds 2 1 [Op.enq (some 5), Op.deq] (mkRingBuf 4)
    (by decide) (by decide) (by decide)

/-- A capacity-2 buffer holding the single element 7 in its readable
slot 0. -/
def rbOneItem : RingBuf :=
  { cap := 2, capModMask := 1, head := 0, tail := 1, putWaits := 0,
    getWaits := 0, data := [⟨1, some 7⟩, ⟨0, none⟩], debugMode := false }

/-- Witness for C7 at a concrete one-element buffer: the successful dequeue
returns item 7 with no error and no fatal call. -/
theorem dequeue_never_nil_on_ok_witness :
    ((none : Option GoErr) = none → (some 7 : Option Nat) ≠ none) ∧
    ((some 7 : Option Nat) = none → (none : Option GoErr) ≠ some GoErr.queueEmpty →
      false = true ∧ (none : Option GoErr) ≠ none) :=
  dequeue_never_nil_on_ok 1 rbOneItem (dequeueLoop 1 rbOneItem).1 (some 7) none false
    (by decide)

theorem inSeg_tail_self (head tail : Nat) : ¬ inSeg head tail tail := by
  unfold inSeg
  split <;> omega

theorem inSeg_head_self (head tail : Nat) (h : head ≠ tail) : inSeg head tail head := by
  unfold inSeg
  split <;> omega

theorem mod_succ_cases (x cap : Nat) (hx : x < cap) :
    (x + 1) % cap = if x + 1 = cap then 0 else x + 1 := by
  split
  · next h =>
    rw [h, Nat.mod_self]
  · exact Nat.mod_eq_of_lt (by omega)

theorem inSeg_advance_tail (cap head tail i : Nat)
    (hh : head < cap) (ht : tail < cap) (hi : i < cap)
    (hne : (tail + 1) % cap ≠ head) :
    inSeg head ((tail + 1) % cap) i ↔ (i = tail ∨ inSeg head tail i) := by
  have hmod := mod_succ_cases tail cap ht
  by_cases hc : tail + 1 = cap
  · rw [hmod, if_pos hc] at hne ⊢
    unfold inSeg
    split <;> split <;> omega
  · rw [hmod, if_neg hc] at hne ⊢
    unfold inSeg
    split <;> split <;> omega

theorem inSeg_advance_head (cap head tail i : Nat)
    (hh : head < cap) (ht : tail < cap) (hi : i < cap)
    (hne : head ≠ tail) :
    inSeg ((head + 1) % cap) tail i ↔ (i ≠ head ∧ inSeg head tail i) := by
  have hmod := mod_succ_cases head cap hh
  by_cases hc : head + 1 = cap
  · rw [hmod, if_pos hc]
    unfold inSeg
    split <;> split <;> omega
  · rw [hmod, if_neg hc]
    unfold inSeg
    split <;> split <;> omega

theorem getD_set_self (l : List Slot) (i : Nat) (a : Slot) (h : i < l.length) :
    (l.set i a).getD i default = a := by
  simp [List.getElem?_set_self h]

theorem getD_set_ne (l : List Slot) (i j : Nat) (a : Slot) (h : i ≠ j) :
    (l.set i a).getD j default = l.getD j default := by
  simp [List.getElem?_set_ne h]

theorem masked_succ_eq_mod (k x m : Nat) (hk : k ≤ 32) (hm : m = 2 ^ k - 1) :
    ((x + 1) % U32) &&& m = (x + 1) % 2 ^ k := by
  have h32 : U32 = 2 ^ 32 := rfl
  rw [hm, h32, Nat.and_pow_two_sub_one_eq_mod,
    Nat.mod_mod_of_dvd _ (Nat.pow_dvd_pow 2 hk)]

theorem two_le_two_pow (k : Nat) (hk : 1 ≤ k) : 2 ≤ 2 ^ k := by
  calc 2 = 2 ^ 1 := rfl
  _ ≤ 2 ^ k := Nat.pow_le_pow_right (by omega) hk

theorem succ_mod_ne_self (k x : Nat) (hk : 1 ≤ k) (hx : x < 2 ^ k) :
    (x + 1) % 2 ^ k ≠ x := by
  have h2 := two_le_two_pow k hk
  rw [mod_succ_cases x (2 ^ k) hx]
  split <;> omega

theorem enqClaimed_slot_self (rb : RingBuf) (item : Option Nat)
    (hlen : rb.tail < rb.data.length) :
    slotAt (enqClaimed rb item) rb.tail = ⟨2, item⟩ := by
  simp only [enqClaimed, slotAt, if_true]
  rw [getD_set_self _ _ _ (by simpa using hlen), getD_set_self _ _ _ hlen]

theorem enqClaimed_slot_ne (rb : RingBuf) (item : Option Nat) (j : Nat)
    (hne : j ≠ rb.tail) :
    slotAt (enqClaimed rb item) j = slotAt rb j := by
  simp only [enqClaimed, slotAt, if_true]
  rw [getD_set_ne _ _ _ _ (Ne.symm hne), getD_set_ne _ _ _ _ (Ne.symm hne)]

theorem enqClaimed_len (rb : RingBuf) (item : Option Nat) :
    (enqClaimed rb item).data.length = rb.data.length := by
  simp [enqClaimed]

theorem enqueueFinish_rw2 (rb : RingBuf) (t : Nat)
    (h2 : (slotAt rb t).readWrite = 2) :
    enqueueFinish rb t =
      ({ rb with data := rb.data.set t { slotAt rb t with readWrite := 1 } }, none) := by
  simp [enqueueFinish, h2]

theorem deqClaimed_slot_self (rb : RingBuf) (hlen : rb.head < rb.data.length) :
    slotAt (deqClaimed rb) rb.head = ⟨3, (slotAt rb rb.head).value⟩ := by
  simp only [deqClaimed, slotAt]
  rw [getD_set_self _ _ _ hlen]

theorem deqClaimed_slot_ne (rb : RingBuf) (j : Nat) (hne : j ≠ rb.head) :
    slotAt (deqClaimed rb) j = slotAt rb j := by
  simp only [deqClaimed, slotAt]
  rw [getD_set_ne _ _ _ _ (Ne.symm hne)]

theorem deqClaimed_len (rb : RingBuf) :
    (deqClaimed rb).data.length = rb.data.length := by
  simp [deqClaimed]

theorem enqueue_wf_success (k fuel : Nat) (rb : RingBuf) (item : Option Nat)
    (hwf : Wf k rb)
    (hnf : ¬ (((rb.tail + 1) % U32) &&& rb.capModMask = rb.head)) :
    (enqueueLoop (fuel+1) rb item).2 = EnqOut.done none ∧
    (enqueueLoop (fuel+1) rb item).1.head = rb.head ∧
    (enqueueLoop (fuel+1) rb item).1.tail = (rb.tail + 1) % 2 ^ k ∧
    (enqueueLoop (fuel+1) rb item).1.capModMask = rb.capModMask ∧
    (enqueueLoop (fuel+1) rb item).1.data.length = rb.data.length ∧
    slotAt (enqueueLoop (fuel+1) rb item).1 rb.tail = ⟨1, item⟩ ∧
    (∀ j, j ≠ rb.tail → slotAt (enqueueLoop (fuel+1) rb item).1 j = slotAt rb j) := by
  have hlen : rb.tail < rb.data.length := hwf.hlen ▸ hwf.htail
  have hrw0 : (slotAt rb rb.tail).readWrite = 0 := by
    have h := hwf.hslots rb.tail hwf.htail
    rwa [if_neg (inSeg_tail_self _ _)] at h
  have hclaim2 := enqClaimed_slot_self rb item hlen
  have hfin := enqueueFinish_rw2 (enqClaimed rb item) rb.tail (by rw [hclaim2])
  have hcf := enqClaimed_fields rb item
  have hclen := enqClaimed_len rb item
  rw [enqueueLoop_succ_eq, if_neg hnf, if_pos hrw0, hfin]
  refine ⟨rfl, ?_, ?_, ?_, ?_, ?_, ?_⟩
  · exact hcf.1
  · show (enqClaimed rb item).tail = (rb.tail + 1) % 2 ^ k
    rw [hcf.2.1, masked_succ_eq_mod k rb.tail _ hwf.hk32 hwf.hmask]
  · exact hcf.2.2
  · show ((enqClaimed rb item).data.set rb.tail _).length = rb.data.length
    rw [List.length_set, hclen]
  · show ((enqClaimed rb item).data.set rb.tail
      { slotAt (enqClaimed rb item) rb.tail with readWrite := 1 }).getD rb.tail default = _
    rw [getD_set_self _ _ _ (by rw [hclen]; exact hlen), hclaim2]
  · intro j hj
    show ((enqClaimed rb item).data.set rb.tail _).getD j default = _
    rw [getD_set_ne _ _ _ _ (Ne.symm hj)]
    exact enqClaimed_slot_ne rb item j hj

theorem enqueue_wf_preserve (k fuel : Nat) (rb : RingBuf) (item : Option Nat)
    (hwf : Wf k rb)
    (hnf : ¬ (((rb.tail + 1) % U32) &&& rb.capModMask = rb.head)) :
    Wf k (enqueueLoop (fuel+1) rb item).1 := by
  obtain ⟨-, hh, ht, hm, hl, hs, ho⟩ := enqueue_wf_success k fuel rb item hwf hnf
  have hne2 : (rb.tail + 1) % 2 ^ k ≠ rb.head := by
    intro hcontra
    exact hnf (by rw [masked_succ_eq_mod k rb.tail _ hwf.hk32 hwf.hmask]; exact hcontra)
  have hpos : 0 < 2 ^ k := Nat.pos_pow_of_pos k (by omega)
  refine ⟨hwf.hk, hwf.hk32, ?_, ?_, ?_, ?_, ?_⟩
  · rw [hm, hwf.hmask]
  · rw [hl, hwf.hlen]
  · rw [hh]
    exact hwf.hhead
  · rw [ht]
    exact Nat.mod_lt _ hpos
  · intro i hi
    rw [hh, ht]
    by_cases hij : i = rb.tail
    · subst hij
      rw [hs]
      rw [if_pos ((inSeg_advance_tail (2 ^ k) rb.head rb.tail rb.tail
        hwf.hhead hwf.htail hi hne2).mpr (Or.inl rfl))]
    · rw [ho i hij]
      have hold := hwf.hslots i hi
      rw [hold]
      by_cases hin : inSeg rb.head rb.tail i
      · rw [if_pos hin, if_pos ((inSeg_advance_tail (2 ^ k) rb.head rb.tail i
          hwf.hhead hwf.htail hi hne2).mpr (Or.inr hin))]
      · rw [if_neg hin, if_neg ?_]
        intro hcontra
        rcases (inSeg_advance_tail (2 ^ k) rb.head rb.tail i
          hwf.hhead hwf.htail hi hne2).mp hcontra with h | h
        · exact hij h
        · exact hin h

theorem dequeueFinish_rw3_state (rb : RingBuf) (hd tl : Nat)
    (h3 : (slotAt rb hd).readWrite = 3) (hhd : rb.head = hd)
    (hlen : hd < rb.data.length) :
    (dequeueFinish rb hd tl).1.head = ((hd + 1) % U32) &&& rb.capModMask ∧
    (dequeueFinish rb hd tl).1.tail = rb.tail ∧
    (dequeueFinish rb hd tl).1.capModMask = rb.capModMask ∧
    (dequeueFinish rb hd tl).1.data.length = rb.data.length ∧
    slotAt (dequeueFinish rb hd tl).1 hd = ⟨0, (slotAt rb hd).value⟩ ∧
    (∀ j, j ≠ hd → slotAt (dequeueFinish rb hd tl).1 j = slotAt rb j) := by
  simp only [dequeueFinish]
  rw [if_pos hhd]
  rw [show slotAt { rb with head := ((hd + 1) % U32) &&& rb.capModMask } hd = slotAt rb hd from rfl]
  rw [h3]
  simp only [if_pos rfl, apply_ite, ite_self]
  refine ⟨trivial, trivial, trivial, by simp, ?_, ?_⟩
  · simp only [slotAt]
    exact getD_set_self _ _ _ hlen
  · intro j hj
    simp only [slotAt]
    exact getD_set_ne _ _ _ _ (Ne.symm hj)

theorem dequeue_wf_success (k fuel : Nat) (rb : RingBuf) (hwf : Wf k rb)
    (hne : rb.head ≠ rb.tail) :
    (dequeueLoop (fuel+1) rb).2 =
      (if (slotAt rb rb.head).value = none then DeqOut.done none (some GoErr.nilErr) true
       else DeqOut.done (slotAt rb rb.head).value none false) ∧
    (dequeueLoop (fuel+1) rb).1.head = (rb.head + 1) % 2 ^ k ∧
    (dequeueLoop (fuel+1) rb).1.tail = rb.tail ∧
    (dequeueLoop (fuel+1) rb).1.capModMask = rb.capModMask ∧
    (dequeueLoop (fuel+1) rb).1.data.length = rb.data.length ∧
    slotAt (dequeueLoop (fuel+1) rb).1 rb.head = ⟨0, (slotAt rb rb.head).value⟩ ∧
    (∀ j, j ≠ rb.head → slotAt (dequeueLoop (fuel+1) rb).1 j = slotAt rb j) := by
  have hlen : rb.head < rb.data.length := hwf.hlen ▸ hwf.hhead
  have hrw1 : (slotAt rb rb.head).readWrite = 1 := by
    have h := hwf.hslots rb.head hwf.hhead
    rwa [if_pos (inSeg_head_self _ _ hne)] at h
  have hD := deqClaimed_slot_self rb hlen
  have h3 : (slotAt (deqClaimed rb) rb.head).readWrite = 3 := by rw [hD]
  have hDv : (slotAt (deqClaimed rb) rb.head).value = (slotAt rb rb.head).value := by rw [hD]
  have hXf := deqClaimed_fields rb
  have hXlen := deqClaimed_len rb
  have hXhd : (deqClaimed rb).head = rb.head := hXf.1
  have hst := dequeueFinish_rw3_state (deqClaimed rb) rb.head rb.tail h3 hXhd
    (by rw [hXlen]; exact hlen)
  have hout := dequeueFinish_rw3 (deqClaimed rb) rb.head rb.tail h3
  rw [dequeueLoop_succ_eq, if_neg hne, if_pos hrw1]
  refine ⟨?_, ?_, ?_, ?_, ?_, ?_, ?_⟩
  · rw [hout, hDv]
  · rw [hst.1, hXf.2.2, masked_succ_eq_mod k rb.head _ hwf.hk32 hwf.hmask]
  · rw [hst.2.1, hXf.2.1]
  · rw [hst.2.2.1, hXf.2.2]
  · rw [hst.2.2.2.1, hXlen]
  · rw [hst.2.2.2.2.1, hDv]
  · intro j hj
    rw [hst.2.2.2.2.2 j hj, deqClaimed_slot_ne rb j hj]

theorem dequeue_wf_preserve (k fuel : Nat) (rb : RingBuf) (hwf : Wf k rb)
    (hne : rb.head ≠ rb.tail) :
    Wf k (dequeueLoop (fuel+1) rb).1 := by
  obtain ⟨-, hh, ht, hm, hl, hs, ho⟩ := dequeue_wf_success k fuel rb hwf hne
  have hpos : 0 < 2 ^ k := Nat.pos_pow_of_pos k (by omega)
  refine ⟨hwf.hk, hwf.hk32, ?_, ?_, ?_, ?_, ?_⟩
  · rw [hm, hwf.hmask]
  · rw [hl, hwf.hlen]
  · rw [hh]
    exact Nat.mod_lt _ hpos
  · rw [ht]
    exact hwf.htail
  · intro i hi
    rw [hh, ht]
    by_cases hij : i = rb.head
    · subst hij
      rw [hs]
      rw [if_neg ?_]
      intro hcontra
      exact ((inSeg_advance_head (2 ^ k) rb.head rb.tail rb.head
        hwf.hhead hwf.htail hi hne).mp hcontra).1 rfl
    · rw [ho i hij]
      have hold := hwf.hslots i hi
      rw [hold]
      by_cases hin : inSeg rb.head rb.tail i
      · rw [if_pos hin, if_pos ((inSeg_advance_head (2 ^ k) rb.head rb.tail i
          hwf.hhead hwf.htail hi hne).mpr ⟨hij, hin⟩)]
      · rw [if_neg hin, if_neg ?_]
        intro hcontra
        exact hin ((inSeg_advance_head (2 ^ k) rb.head rb.tail i
          hwf.hhead hwf.htail hi hne).mp hcontra).2

/-- C8: the Raced error arises in Enqueue exactly when the release CAS
`rw: 2 → 1` fails and in Dequeue exactly when the release CAS `rw: 3 → 0`
fails (the head CAS before it does not touch slot data); and under
sequential use starting from a well-formed state (slots Writable / Readable
consistently with head/tail), both operations never return Raced and
preserve well-formedness, so the Raced branch is unreachable. -/
theorem raced_unreachable_sequential (k fuel : Nat) (rb : RingBuf) (item : Option Nat)
    (hwf : Wf k rb) :
    (∀ rb2 t, ((enqueueFinish rb2 t).2 = some GoErr.racedW ↔ (slotAt rb2 t).readWrite ≠ 2)) ∧
    (∀ rb2 hd tl it ft,
      ((dequeueFinish rb2 hd tl).2 = DeqOut.done it (some GoErr.racedR) ft ↔
        ((slotAt rb2 hd).readWrite ≠ 3 ∧ it = (slotAt rb2 hd).value ∧ ft = false))) ∧
    (enqueueLoop (fuel+1) rb item).2 ≠ EnqOut.done (some GoErr.racedW) ∧
    (∀ it ft, (dequeueLoop (fuel+1) rb).2 ≠ DeqOut.done it (some GoErr.racedR) ft) ∧
    Wf k (enqueueLoop (fuel+1) rb item).1 ∧
    Wf k (dequeueLoop (fuel+1) rb).1 := by
  refine ⟨?_, ?_, ?_, ?_, ?_, ?_⟩
  · intro rb2 t
    simp only [enqueueFinish]
    split
    · next h2 => simp [h2]
    · next h2 => simp [h2]
  · intro rb2 hd tl it ft
    simp only [dequeueFinish]
    rw [show slotAt (if rb2.head = hd then { rb2 with head := ((hd + 1) % U32) &&& rb2.capModMask } else rb2) hd
          = slotAt rb2 hd from by split <;> rfl]
    split
    · next h3 =>
      split
      · simp [h3]
      · simp [h3]
    · next h3 =>
      simp only [h3]
      constructor
      · intro h
        rw [DeqOut.done.injEq] at h
        exact ⟨h3, h.1.symm, h.2.2.symm⟩
      · rintro ⟨-, hitv, hftv⟩
        rw [hitv, hftv]
  · by_cases hfull : ((rb.tail + 1) % U32) &&& rb.capModMask = rb.head
    · rw [enqueueLoop_succ_eq, if_pos hfull]
      simp
    · rw [(enqueue_wf_success k fuel rb item hwf hfull).1]
      simp
  · intro it ft
    by_cases hemp : rb.head = rb.tail
    · rw [(dequeue_empty_iff_unchanged fuel rb).2 hemp]
      simp
    · rw [(dequeue_wf_success k fuel rb hwf hemp).1]
      split <;> simp
  · by_cases hfull : ((rb.tail + 1) % U32) &&& rb.capModMask = rb.head
    · rw [enqueueLoop_succ_eq, if_pos hfull]
      exact hwf
    · exact enqueue_wf_preserve k fuel rb item hwf hfull
  · by_cases hemp : rb.head = rb.tail
    · rw [(dequeue_empty_iff_unchanged fuel rb).2 hemp]
      exact hwf
    · exact dequeue_wf_preserve k fuel rb hwf hemp

theorem raced_unreachable_sequential_witness :
    (enqueueLoop 1 (mkRingBuf 4) (some 3)).2 ≠ EnqOut.done (some GoErr.racedW) ∧
    (∀ it ft, (dequeueLoop 1 (mkRingBuf 4)).2 ≠ DeqOut.done it (some GoErr.racedR) ft) := by
  have h := raced_unreachable_sequential 2 0 (mkRingBuf 4) (some 3)
    ⟨by decide, by decide, by decide, by decide, by decide, by decide, by decide⟩
  exact ⟨h.2.2.1, h.2.2.2.1⟩

/-- C9: Enqueue accepts a nil payload without error (there is no producer
nil check), and the Dequeue that retrieves that element takes the
invariant-violation path: it returns a non-nil error and invokes
`logger.Fatal`.  Stated from any well-formed empty buffer, so the dequeued
element is exactly the nil one just enqueued. -/
theorem nil_payload_accepted_then_fatal (k : Nat) (rb : RingBuf) (hwf : Wf k rb)
    (hempty : rb.head = rb.tail) :
    (enqueueLoop 1 rb none).2 = EnqOut.done none ∧
    (dequeueLoop 1 (enqueueLoop 1 rb none).1).2 = DeqOut.done none (some GoErr.nilErr) true := by
  have hnf : ¬ (((rb.tail + 1) % U32) &&& rb.capModMask = rb.head) := by
    rw [masked_succ_eq_mod k rb.tail _ hwf.hk32 hwf.hmask, hempty]
    exact succ_mod_ne_self k rb.tail hwf.hk hwf.htail
  obtain ⟨he, hh, ht, hm, hl, hs, ho⟩ := enqueue_wf_success k 0 rb none hwf hnf
  have hwfE := enqueue_wf_preserve k 0 rb none hwf hnf
  have hneE : (enqueueLoop 1 rb none).1.head ≠ (enqueueLoop 1 rb none).1.tail := by
    rw [hh, ht, hempty]
    exact fun hcontra => succ_mod_ne_self k rb.tail hwf.hk hwf.htail hcontra.symm
  obtain ⟨hd2, -, -, -, -, -, -⟩ := dequeue_wf_success k 0 _ hwfE hneE
  refine ⟨he, ?_⟩
  rw [hd2]
  have hslotE : slotAt (enqueueLoop 1 rb none).1 (enqueueLoop 1 rb none).1.head
      = ⟨1, none⟩ := by
    rw [hh, hempty]
    exact hs
  rw [hslotE]
  simp

theorem nil_payload_accepted_then_fatal_witness :
    (enqueueLoop 1 (mkRingBuf 4) none).2 = EnqOut.done none ∧
    (dequeueLoop 1 (enqueueLoop 1 (mkRingBuf 4) none).1).2 =
      DeqOut.done none (some GoErr.nilErr) true :=
  nil_payload_accepted_then_fatal 2 (mkRingBuf 4)
    ⟨by decide, by decide, by decide, by decide, by decide, by decide, by decide⟩
    (by decide)

theorem rw_set_cases (l : List Slot) (t j : Nat) (a : Slot) :
    (l.set t a).getD j default = l.getD j default ∨
    (j = t ∧ t < l.length ∧ (l.set t a).getD j default = a) := by
  by_cases hj : j = t
  · subst hj
    by_cases hlen : j < l.length
    · exact Or.inr ⟨rfl, hlen, getD_set_self _ _ _ hlen⟩
    · rw [List.set_eq_of_length_le (Nat.le_of_not_lt hlen)]
      exact Or.inl rfl
  · exact Or.inl (getD_set_ne _ _ _ _ (Ne.symm hj))

/-- A producer action (one atomic step of `Enqueue`) either leaves a slot's
`rw` unchanged or performs its claim CAS `0 → 2` or its publish CAS
`2 → 1` — never a consumer transition. -/
theorem prodStep_rw (rb : RingBuf) (item : Option Nat) (st : PState) (j : Nat) :
    rwAt (prodStep rb item st).1 j = rwAt rb j ∨
    (rwAt rb j = 0 ∧ rwAt (prodStep rb item st).1 j = 2) ∨
    (rwAt rb j = 2 ∧ rwAt (prodStep rb item st).1 j = 1) := by
  cases st with
  | start =>
    simp only [prodStep]
    split <;> exact Or.inl rfl
  | snapped head tail nt =>
    simp only [prodStep]
    split
    · next h0 =>
      rcases rw_set_cases rb.data tail j { slotAt rb tail with readWrite := 2 }
        with h | ⟨hj, hlen, hval⟩
      · exact Or.inl (congrArg Slot.readWrite h)
      · subst hj
        refine Or.inr (Or.inl ⟨h0, ?_⟩)
        show ((rb.data.set j _).getD j default).readWrite = 2
        rw [hval]
    · exact Or.inl rfl
  | claimed head tail nt =>
    simp only [prodStep]
    rcases rw_set_cases rb.data tail j { slotAt rb tail with value := item }
      with h | ⟨hj, hlen, hval⟩
    · exact Or.inl (congrArg Slot.readWrite h)
    · subst hj
      refine Or.inl ?_
      show ((rb.data.set j _).getD j default).readWrite = _
      rw [hval]
      rfl
  | wrote head tail nt =>
    simp only [prodStep]
    split <;> exact Or.inl rfl
  | advanced head tail nt =>
    simp only [prodStep]
    split
    · next h2 =>
      rcases rw_set_cases rb.data tail j { slotAt rb tail with readWrite := 1 }
        with h | ⟨hj, hlen, hval⟩
      · exact Or.inl (congrArg Slot.readWrite h)
      · subst hj
        refine Or.inr (Or.inr ⟨h2, ?_⟩)
        show ((rb.data.set j _).getD j default).readWrite = 1
        rw [hval]
    · exact Or.inl rfl
  | done e => exact Or.inl rfl

/-- A consumer action (one atomic step of `Dequeue`) either leaves a slot's
`rw` unchanged or performs its claim CAS `1 → 3` or its release CAS
`3 → 0` — never a producer transition. -/
theorem consStep_rw (rb : RingBuf) (st : CState) (j : Nat) :
    rwAt (consStep rb st).1 j = rwAt rb j ∨
    (rwAt rb j = 1 ∧ rwAt (consStep rb st).1 j = 3) ∨
    (rwAt rb j = 3 ∧ rwAt (consStep rb st).1 j = 0) := by
  cases st with
  | start =>
    simp only [consStep]
    split <;> exact Or.inl rfl
  | snapped head tail =>
    simp only [consStep]
    split
    · next h1 =>
      rcases rw_set_cases rb.data head j { slotAt rb head with readWrite := 3 }
        with h | ⟨hj, hlen, hval⟩
      · exact Or.inl (congrArg Slot.readWrite h)
      · subst hj
        refine Or.inr (Or.inl ⟨h1, ?_⟩)
        show ((rb.data.set j _).getD j default).readWrite = 3
        rw [hval]
    · exact Or.inl rfl
  | claimed head tail => exact Or.inl rfl
  | readv head tail item =>
    simp only [consStep]
    split <;> exact Or.inl rfl
  | advanced head tail item =>
    simp only [consStep]
    split
    · next h3 =>
      rcases rw_set_cases rb.data head j { slotAt rb head with readWrite := 0 }
        with h | ⟨hj, hlen, hval⟩
      · exact Or.inl (congrArg Slot.readWrite h)
      · subst hj
        refine Or.inr (Or.inr ⟨h3, ?_⟩)
        show ((rb.data.set j _).getD j default).readWrite = 0
        rw [hval]
    · exact Or.inl rfl
  | done it e => exact Or.inl rfl

theorem stepSys_rw (s : Sys) (i j : Nat) :
    rwAt (stepSys s i).rb j = rwAt s.rb j ∨
    (rwAt s.rb j = 0 ∧ rwAt (stepSys s i).rb j = 2) ∨
    (rwAt s.rb j = 2 ∧ rwAt (stepSys s i).rb j = 1) ∨
    (rwAt s.rb j = 1 ∧ rwAt (stepSys s i).rb j = 3) ∨
    (rwAt s.rb j = 3 ∧ rwAt (stepSys s i).rb j = 0) := by
  cases ht : s.threads.get? i with
  | none =>
    simp only [stepSys, ht]
    exact Or.inl trivial
  | some t =>
    cases t with
    | prod item st =>
      simp only [stepSys, ht, stepThread]
      rcases prodStep_rw s.rb item st j with h | h | h
      · exact Or.inl h
      · exact Or.inr (Or.inl h)
      · exact Or.inr (Or.inr (Or.inl h))
    | cons st =>
      simp only [stepSys, ht, stepThread]
      rcases consStep_rw s.rb st j with h | h | h
      · exact Or.inl h
      · exact Or.inr (Or.inr (Or.inr (Or.inl h)))
      · exact Or.inr (Or.inr (Or.inr (Or.inr h)))

theorem runSys_rw_range :
    ∀ (sched : List Nat) (s : Sys),
    (∀ j, rwAt s.rb j = 0 ∨ rwAt s.rb j = 1 ∨ rwAt s.rb j = 2 ∨ rwAt s.rb j = 3) →
    (∀ j, rwAt (runSys s sched).rb j = 0 ∨ rwAt (runSys s sched).rb j = 1 ∨
      rwAt (runSys s sched).rb j = 2 ∨ rwAt (runSys s sched).rb j = 3) := by
  intro sched
  induction sched with
  | nil =>
    intro s h j
    exact h j
  | cons i rest ih =>
    intro s h
    simp only [runSys]
    apply ih
    intro j
    rcases stepSys_rw s i j with he | ⟨-, h2⟩ | ⟨-, h2⟩ | ⟨-, h2⟩ | ⟨-, h2⟩
    · rw [he]
      exact h j
    · rw [h2]
      simp
    · rw [h2]
      simp
    · rw [h2]
      simp
    · rw [h2]
      simp

/-- C2: the transitions are attributed to the operations — an atomic action
of a producer thread (inside `Enqueue`) either leaves a slot's `rw` marker
unchanged or performs one of its two CAS transitions 0 → 2 (claim) or
2 → 1 (publish); an atomic action of a consumer thread (inside `Dequeue`)
either leaves it unchanged or performs 1 → 3 (claim) or 3 → 0 (release); a
step of a nonexistent thread writes nothing; consequently no other code path
writes `rw`, and along any schedule from a state whose markers lie in
{0, 1, 2, 3}, every marker stays in {0, 1, 2, 3}. -/
theorem slot_rw_state_machine (s : Sys) (i j : Nat) (sched : List Nat) :
    (∀ item st, s.threads.get? i = some (Thread.prod item st) →
      (rwAt (stepSys s i).rb j = rwAt s.rb j ∨
        (rwAt s.rb j = 0 ∧ rwAt (stepSys s i).rb j = 2) ∨
        (rwAt s.rb j = 2 ∧ rwAt (stepSys s i).rb j = 1))) ∧
    (∀ st, s.threads.get? i = some (Thread.cons st) →
      (rwAt (stepSys s i).rb j = rwAt s.rb j ∨
        (rwAt s.rb j = 1 ∧ rwAt (stepSys s i).rb j = 3) ∨
        (rwAt s.rb j = 3 ∧ rwAt (stepSys s i).rb j = 0))) ∧
    (s.threads.get? i = none → rwAt (stepSys s i).rb j = rwAt s.rb j) ∧
    ((∀ j2, rwAt s.rb j2 = 0 ∨ rwAt s.rb j2 = 1 ∨ rwAt s.rb j2 = 2 ∨ rwAt s.rb j2 = 3) →
      ∀ j2, rwAt (runSys s sched).rb j2 = 0 ∨ rwAt (runSys s sched).rb j2 = 1 ∨
        rwAt (runSys s sched).rb j2 = 2 ∨ rwAt (runSys s sched).rb j2 = 3) := by
  refine ⟨?_, ?_, ?_, fun h => runSys_rw_range sched s h⟩
  · intro item st ht
    simp only [stepSys, ht, stepThread]
    exact prodStep_rw s.rb item st j
  · intro st ht
    simp only [stepSys, ht, stepThread]
    exact consStep_rw s.rb st j
  · intro ht
    simp only [stepSys, ht]

/-- A one-producer system on a fresh capacity-4 buffer, used to witness the
state-machine theorem at a concrete input. -/
def oneProdSys : Sys :=
  ⟨mkRingBuf 4, [Thread.prod (some 1) PState.start]⟩

/-- Witness for C2 at a concrete system, step and schedule: thread 0 is a
producer, so its step satisfies the producer-only transition disjunction,
and the five-step schedule keeps every marker in range. -/
theorem slot_rw_state_machine_witness :
    (rwAt (stepSys oneProdSys 0).rb 0 = rwAt oneProdSys.rb 0 ∨
      (rwAt oneProdSys.rb 0 = 0 ∧ rwAt (stepSys oneProdSys 0).rb 0 = 2) ∨
      (rwAt oneProdSys.rb 0 = 2 ∧ rwAt (stepSys oneProdSys 0).rb 0 = 1)) ∧
    (∀ j2, rwAt (runSys oneProdSys [0, 0, 0, 0, 0]).rb j2 = 0 ∨
      rwAt (runSys oneProdSys [0, 0, 0, 0, 0]).rb j2 = 1 ∨
      rwAt (runSys oneProdSys [0, 0, 0, 0, 0]).rb j2 = 2 ∨
      rwAt (runSys oneProdSys [0, 0, 0, 0, 0]).rb j2 = 3) := by
  have h := slot_rw_state_machine oneProdSys 0 0 [0, 0, 0, 0, 0]
  refine ⟨h.1 (some 1) PState.start (by decide), h.2.2.2 ?_⟩
  intro j2
  by_cases hj : j2 < 4
  · interval_cases j2 <;> simp [rwAt, slotAt, oneProdSys, mkRingBuf, ceilPow2, ceilPow2Aux, default_slot]
  · left
    show (oneProdSys.rb.data.getD j2 default).readWrite = 0
    rw [List.getD_eq_getElem?_getD, List.getElem?_eq_none
      (by simpa [oneProdSys, mkRingBuf, ceilPow2, ceilPow2Aux] using Nat.le_of_not_lt hj)]
    rfl

/-- A state at the point where a consumer has claimed slot 0 but the slot's
marker was (counterfactually) changed away from 3, so the release CAS
`rw: 3 → 0` must fail: slot 0 carries `rw = 1` and payload 7. -/
def rbRaced : RingBuf :=
  { cap := 4, capModMask := 3, head := 0, tail := 1, putWaits := 0,
    getWaits := 0, data := [⟨1, some 7⟩, ⟨0, none⟩, ⟨0, none⟩, ⟨0, none⟩],
    debugMode := false }

/-- C10 counterexample: when Dequeue's final release CAS fails, the Raced
error is returned with the payload still attached and the head advancement
kept, but the slot is NOT left in state 3 (ReadInProgress): a CAS expecting
3 can only fail because the marker is not 3, and the failure branch leaves
it untouched (here at 1). -/
theorem dequeue_raced_slot_not_three :
    (dequeueFinish rbRaced 0 1).2 = DeqOut.done (some 7) (some GoErr.racedR) false ∧
    rwAt (dequeueFinish rbRaced 0 1).1 0 ≠ 3 ∧
    (dequeueFinish rbRaced 0 1).1.head = 1 := by
  decide

/-- C10 (amended): when the final release CAS of Dequeue fails (the claimed
slot's marker is not 3), the read payload is still returned in the item
result alongside the Raced error, the head CAS performed just before is not
rolled back, and the slot is left completely unchanged — at the non-3 marker
value that made the CAS fail, not restored to Readable and not in state 3. -/
theorem dequeueFinish_raced_effects (rb : RingBuf) (hd tl : Nat)
    (h3 : (slotAt rb hd).readWrite ≠ 3) :
    dequeueFinish rb hd tl =
      ((if rb.head = hd then { rb with head := ((hd + 1) % U32) &&& rb.capModMask } else rb),
        DeqOut.done (slotAt rb hd).value (some GoErr.racedR) false) := by
  simp only [dequeueFinish]
  rw [show slotAt (if rb.head = hd then { rb with head := ((hd + 1) % U32) &&& rb.capModMask } else rb) hd
        = slotAt rb hd from by split <;> rfl]
  rw [if_neg h3]

/-- Witness for the amended C10 at the concrete raced state. -/
theorem dequeueFinish_raced_effects_witness :
    dequeueFinish rbRaced 0 1 =
      ({ rbRaced with head := 1 }, DeqOut.done (some 7) (some GoErr.racedR) false) := by
  have h := dequeueFinish_raced_effects rbRaced 0 1 (by decide)
  rw [h]
  decide

end RingBufSpec
